import Mathlib

/-!
Verification model of the pyvitals level-acquisition library.

The definitions below are shallow embeddings of the functions in
`pyvitals/main.py`, `pyvitals/async_main.py`, `pyvitals/exceptions.py` and the
historical snapshot `py-vitals/main.py`.  Text is modelled as `List Char`,
filesystem state as an association list from paths to byte contents, and
Python exceptions as explicit `Except` error values.
-/

/-- Filesystem path as produced by `pathlib`: parent directory, stem (name
without the final suffix) and extension (final suffix, including the dot).
`Path.with_stem` replaces only the `stem` field. -/
structure FPath where
  dir : List Char
  stem : List Char
  ext : List Char
deriving DecidableEq, Repr

/-- Exceptions raised by the library: `httpx.HTTPStatusError` from
`raise_for_status`, `BadURLFilename` and `BadRDZipFile` from
`pyvitals/exceptions.py`, `OSError`, `zipfile.BadZipFile`, and
`CancelledError`.  `CancelledError` derives from `BaseException`, not
`Exception`; all the others derive from `Exception`. -/
inductive PyExc where
  | httpStatusError : PyExc
  | badURLFilename : List Char → PyExc
  | badRDZipFile : FPath → PyExc
  | osError : PyExc
  | badZipFile : PyExc
  | cancelledError : PyExc
deriving DecidableEq, Repr

/-- Whether a raised value is caught by `except Exception`: every listed
exception is, except `CancelledError`, which derives only from
`BaseException` (Python 3.8+). -/
def isExceptionSubclass : PyExc → Bool
  | .cancelledError => false
  | _ => true

/-- Characters removed by `get_filename`: `r'<>:"/\|?*'`. -/
def illegalChars : List Char := ['<', '>', ':', '"', '/', '\\', '|', '?', '*']

/-- Embeds the sanitization loop of `get_filename`:
`for char in r'<>:"/\|?*': name = name.replace(char, '')`.
Each `str.replace(char, '')` deletes every occurrence of that character. -/
def sanitize (name : List Char) : List Char :=
  illegalChars.foldl (fun acc c => acc.filter (fun x => !(x == c))) name

/-- Embeds `url.rsplit('/', 1)[-1]`: the segment after the last slash
(the whole string when it has no slash). -/
def afterLastSlash (url : List Char) : List Char :=
  (url.reverse.takeWhile (fun c => !(c == '/'))).reverse

/-- The apostrophe character (code point 39), as used by the
Content-Disposition regex alternative `[\'"]`. -/
def singleQuoteChar : Char := Char.ofNat 39

/-- Embeds the second alternative of the regex group
`(([\'"]).*?\2|[^;\n]*)`: a greedy run of characters other than `;` and
newline, possibly empty. -/
def cdBareValue (l : List Char) : List Char :=
  l.takeWhile (fun c => !(c == ';') && !(c == '\n'))

/-- Embeds the first alternative of the regex group: `([\'"]).*?\2` after the
opening quote `q` has been consumed.  The lazy `.*?` takes the shortest run of
characters up to the next occurrence of `q`; `.` does not match a newline, so
the alternative fails when no `q` occurs before a newline or the end.  The
captured group includes both quote characters. -/
def cdQuotedValue (q : Char) (l : List Char) : Option (List Char) :=
  let pre := l.takeWhile (fun c => !(c == q))
  if pre.length < l.length && pre.all (fun c => !(c == '\n')) then
    some (q :: pre ++ [q])
  else none

/-- Embeds a match attempt of `re.search(r'filename[^;=\n]*=(([\'"]).*?\2|[^;\n]*)', h)`
anchored at the head of `l`, returning `match.group(1)`.  The literal
`filename` is followed by a run of characters excluding `;`, `=` and newline,
then `=`; since that run cannot contain `=`, the first special character met
must be the `=`.  After the `=`, the quoted alternative is tried first and the
bare alternative is the fallback (the bare run starts at the opening quote
character when the quoted alternative fails). -/
def cdMatchAt (l : List Char) : Option (List Char) :=
  if l.take 8 = "filename".data then
    let rest := l.drop 8
    let run := rest.takeWhile (fun c => !(c == ';') && !(c == '=') && !(c == '\n'))
    match rest.drop run.length with
    | '=' :: rest2 =>
      match rest2 with
      | q :: tl =>
        if q == singleQuoteChar || q == '"' then
          match cdQuotedValue q tl with
          | some g => some g
          | none => some (cdBareValue rest2)
        else some (cdBareValue rest2)
      | [] => some (cdBareValue rest2)
    | _ => none
  else none

/-- Embeds the scan of `re.search`: the match is attempted at each position
from the left; the first position where the pattern matches wins. -/
def cdSearch : List Char → Option (List Char)
  | [] => none
  | c :: tl =>
    match cdMatchAt (c :: tl) with
    | some g => some g
    | none => cdSearch tl

/-- Embeds `get_filename` from `pyvitals/main.py`.  The response is modelled
by its URL string and its optional `Content-Disposition` header.  When the
URL ends with `.rdzip` the name is the segment after the last slash;
otherwise the name is extracted from the header, raising `BadURLFilename`
when the header is missing or the pattern does not match.  Either name is
then sanitized. -/
def get_filename (url : List Char) (contentDisposition : Option (List Char)) :
    Except PyExc (List Char) :=
  if ".rdzip".data.isSuffixOf url then
    .ok (sanitize (afterLastSlash url))
  else
    match contentDisposition with
    | none => .error (.badURLFilename url)
    | some h =>
      match cdSearch h with
      | none => .error (.badURLFilename url)
      | some g => .ok (sanitize g)

/-- Decimal digit character with value `n` (for `n < 10`). -/
def decimalDigitChar (n : Nat) : Char := Char.ofNat (48 + n)

/-- Fuel-driven decimal printer, most significant digit first; with fuel
above `n` it produces the canonical decimal numeral of `n`. -/
def natDecimalAux : Nat → Nat → List Char → List Char
  | 0, _, acc => acc
  | fuel + 1, n, acc =>
    if n < 10 then decimalDigitChar n :: acc
    else natDecimalAux fuel (n / 10) (decimalDigitChar (n % 10) :: acc)

/-- Embeds Python `str(n)` for a natural number, as used by the f-string
`f" ({index})"` in `rename`. -/
def natDecimal (n : Nat) : List Char := natDecimalAux (n + 1) n []

/-- Numeric value of a decimal digit string, used to invert `natDecimal`. -/
def decimalVal (l : List Char) : Nat :=
  l.foldl (fun a c => a * 10 + (c.toNat - 48)) 0

/-- Embeds `path.stem + f" ({index})"` from `rename`. -/
def candidateStem (p : FPath) (n : Nat) : List Char :=
  p.stem ++ (' ' :: '(' :: (natDecimal n ++ [')']))

/-- Embeds `path.with_stem(path.stem + f" ({index})")` from `rename`. -/
def candidate (p : FPath) (n : Nat) : FPath :=
  { p with stem := candidateStem p n }

/-- Embeds the `while` loop of `rename`: starting at `index`, advance while
the numbered candidate exists.  The loop in the source is unbounded; here it
carries fuel, and `rename` passes enough fuel for the loop to reach a free
index (the candidates are pairwise distinct, so at most `existing.length`
of them can be taken). -/
def renameLoop (existing : List FPath) (p : FPath) : Nat → Nat → Nat
  | 0, index => index
  | fuel + 1, index =>
    if candidate p index ∈ existing then renameLoop existing p fuel (index + 1)
    else index

/-- Embeds `rename` from `pyvitals/main.py`.  The filesystem is modelled by
`existing`, the list of paths (files or directories) that exist; `exists()`
is membership in it.  A path that does not exist is returned unchanged;
otherwise candidates `stem (2)`, `stem (3)`, ... are probed in order. -/
def rename (existing : List FPath) (p : FPath) : FPath :=
  if p ∈ existing then
    candidate p (renameLoop existing p (existing.length + 1) 2)
  else p

/-- Embeds `pathlib`'s stem/suffix split of a file name: the suffix starts at
the last dot, provided that dot is not the leading character; a name with no
dot (or only a leading one) has an empty suffix. -/
def splitExt (name : List Char) : List Char × List Char :=
  let revExt := name.reverse.takeWhile (fun c => !(c == '.'))
  if revExt.length + 2 ≤ name.length then
    (name.take (name.length - revExt.length - 1),
      name.drop (name.length - revExt.length - 1))
  else (name, [])

/-- Embeds `Path(dir, name)`. -/
def mkPath (dir name : List Char) : FPath :=
  { dir := dir, stem := (splitExt name).1, ext := (splitExt name).2 }

/-- Filesystem contents: the existing files with their byte contents. -/
abbrev FS := List (FPath × List Nat)

/-- Whether a path exists in the modelled filesystem. -/
def fsHas (fs : FS) (p : FPath) : Bool := fs.any (fun e => e.1 == p)

/-- Embeds `path.unlink()`: the file is removed. -/
def fsErase (fs : FS) (p : FPath) : FS := fs.filter (fun e => !(e.1 == p))

/-- Creating or truncating a file and leaving it with `content`. -/
def fsSet (fs : FS) (p : FPath) (content : List Nat) : FS :=
  (p, content) :: fsErase fs p

/-- Contents of a file, when it exists. -/
def fsGet (fs : FS) (p : FPath) : Option (List Nat) :=
  (fs.find? (fun e => e.1 == p)).map (fun e => e.2)

/-- Embeds the destination-path determination of `download_level` (and of
`async_download_level`, which is textually identical): with an explicit
`filename` the path is used as given (and may overwrite an existing file);
otherwise the name comes from `get_filename` on the response and is made
unique with `rename`. -/
def resolveFullPath (fs : FS) (url : List Char) (cd : Option (List Char))
    (dir : List Char) (filename : Option (List Char)) : Except PyExc FPath :=
  match filename with
  | some n => .ok (mkPath dir n)
  | none =>
    match get_filename url cd with
    | .error e => .error e
    | .ok n => .ok (rename (fs.map Prod.fst) (mkPath dir n))

/-- Embeds the `try`-guarded write loop of `download_level` (and of
`async_download_level`): each streamed chunk either yields bytes that are
appended to the open file, or raises.  A raised value that is an `Exception`
subclass is caught by `except Exception`, which unlinks the partial file
before re-raising; a `BaseException`-only value such as `CancelledError` is
not caught, so the partial file stays on disk. -/
def writeChunks (fp : FPath) (fs : FS) :
    List Nat → List (Except PyExc (List Nat)) → Except PyExc Unit × FS
  | acc, [] => (.ok (), fsSet fs fp acc)
  | acc, .ok b :: rest => writeChunks fp fs (acc ++ b) rest
  | acc, .error e :: _ =>
    if isExceptionSubclass e then (.error e, fsErase (fsSet fs fp acc) fp)
    else (.error e, fsSet fs fp acc)

/-- Embeds `download_level` from `pyvitals/main.py` (the control flow of
`async_download_level` in `pyvitals/async_main.py` is identical; the await
points do not change the sequential semantics).  The HTTP response is
modelled by its status code, its URL and Content-Disposition header (for
`get_filename`), and the list of chunk outcomes produced by `iter_bytes`.
`raise_for_status` raises for a status of 400 or above, before any write. -/
def download_level (fs : FS) (status : Nat) (url : List Char)
    (cd : Option (List Char)) (chunks : List (Except PyExc (List Nat)))
    (dir : List Char) (filename : Option (List Char)) :
    Except PyExc FPath × FS :=
  if 400 ≤ status then (.error .httpStatusError, fs)
  else
    match resolveFullPath fs url cd dir filename with
    | .error e => (.error e, fs)
    | .ok fp =>
      match writeChunks fp fs [] chunks with
      | (.ok _, fs2) => (.ok fp, fs2)
      | (.error e, fs2) => (.error e, fs2)

/-- Embeds `unzip_level` from `pyvitals/main.py`.  `isZip` is the result of
`zipfile.is_zipfile` on the input; `extract` is the outcome of
`ZipFile(input).extractall(output)`, which can raise an `OSError` (for
filesystem-hostile member names) or other exceptions such as
`zipfile.BadZipFile`.  Only `OSError` is caught and converted; the guard and
the conversion both raise `BadRDZipFile` carrying the input path. -/
def unzip_level (isZip : Bool) (extract : Except PyExc Unit) (input : FPath) :
    Except PyExc Unit :=
  if !isZip then .error (.badRDZipFile input)
  else
    match extract with
    | .error .osError => .error (.badRDZipFile input)
    | r => r

/-- Concrete path used to instantiate the claim C4 theorem. -/
def c4SamplePath : FPath :=
  { dir := "downloads".data, stem := "broken".data, ext := ".rdzip".data }

/-- Concrete path used to instantiate the claim C5 theorem. -/
def c5SamplePath : FPath :=
  { dir := "Levels".data, stem := "My Level".data, ext := ".rdzip".data }

/-- Filesystem where the desired path and its candidates 2 and 3 exist. -/
def c5Existing1 : List FPath :=
  [c5SamplePath, candidate c5SamplePath 2, candidate c5SamplePath 3]

/-- The same filesystem after candidate 3 has been deleted. -/
def c5Existing2 : List FPath :=
  [c5SamplePath, candidate c5SamplePath 2]

/-- Whether a character matches the regex class `[0-9]`. -/
def isDigitC (c : Char) : Bool := '0' ≤ c && c ≤ '9'

/-- Whether a character matches the regex class `[1-9]`. -/
def isNonzeroDigitC (c : Char) : Bool := '1' ≤ c && c ≤ '9'

/-- Whether a character matches the regex class `[a-zA-Z]|[0-9]`. -/
def isAlnumC (c : Char) : Bool :=
  ('a' ≤ c && c ≤ 'z') || ('A' ≤ c && c ≤ 'Z') || isDigitC c

/-- First alternative `[0-9]` of the separator-repair regex value group,
with the trailing ` "` context of the pattern folded in (the regex engine
backtracks into the alternation, so an alternative only succeeds when the
following ` "` also matches).  Returns the captured group and the text after
the whole match. -/
def alt1 : List Char → Option (List Char × List Char)
  | d :: s :: q :: r =>
    if isDigitC d && s = ' ' && q = '"' then some ([d], r) else none
  | _ => none

/-- Second alternative `[1-9][0-9]` of the value group. -/
def alt2 : List Char → Option (List Char × List Char)
  | d1 :: d2 :: s :: q :: r =>
    if isNonzeroDigitC d1 && isDigitC d2 && s = ' ' && q = '"' then
      some ([d1, d2], r)
    else none
  | _ => none

/-- Third alternative `100` of the value group. -/
def alt3 : List Char → Option (List Char × List Char)
  | a :: b :: c :: s :: q :: r =>
    if a = '1' && b = '0' && c = '0' && s = ' ' && q = '"' then
      some (['1', '0', '0'], r)
    else none
  | _ => none

/-- Fourth alternative `\"([a-zA-Z]|[0-9])*\"` of the value group.  The
greedy star over alphanumerics is forced to its maximal munch (a shorter
munch would need a quote where an alphanumeric stands), after which the
closing quote and the trailing ` "` must follow.  The captured group
includes both quotes. -/
def stringAlt (rest : List Char) : Option (List Char × List Char) :=
  match rest.dropWhile isAlnumC with
  | q1 :: s :: q2 :: r =>
    if q1 = '"' && s = ' ' && q2 = '"' then
      some ('"' :: (rest.takeWhile isAlnumC ++ ['"']), r)
    else none
  | _ => none

/-- The three integer alternatives tried in the regex's order. -/
def digitAlts (l : List Char) : Option (List Char × List Char) :=
  match alt1 l with
  | some v => some v
  | none =>
    match alt2 l with
    | some v => some v
    | none => alt3 l

/-- The full value-group alternation
`([0-9]|[1-9][0-9]|100|\"([a-zA-Z]|[0-9])*\")`.  The integer alternatives
all require a digit first and the string alternative a quote first, so
dispatching on the head character is equivalent to the regex's ordered
alternation. -/
def tryValue (l : List Char) : Option (List Char × List Char) :=
  match l with
  | '"' :: rest => stringAlt rest
  | _ => digitAlts l

/-- Embeds one match attempt of the separator-repair regex
`\": ([0-9]|[1-9][0-9]|100|\"([a-zA-Z]|[0-9])*\") \"` from `parse_level`
(`pyvitals/main.py`), anchored at the head of the text: the literal `": `
context, then the value group, then the literal ` "`.  Returns group 1 and
the text after the whole match. -/
def matchAt : List Char → Option (List Char × List Char)
  | '"' :: ':' :: ' ' :: l => tryValue l
  | _ => none

/-- Value grammar stated in the specification's words: the value token is an
integer in `[0, 100]` (written canonically, as `str` renders it) or a quoted
alphanumeric string.  Used to compare the repair's matcher against the
specified grammar. -/
def specValue (g : List Char) : Prop :=
  (∃ n : Nat, n ≤ 100 ∧ g = natDecimal n) ∨
    (∃ mid : List Char, g = '"' :: (mid ++ ['"']) ∧ ∀ c ∈ mid, isAlnumC c = true)

/-- Embeds `re.sub` for the separator-repair regex with replacement
`": \1, "`: scan left to right, rewrite each non-overlapping match and
continue after it.  Each step consumes at least one character, so fuel equal
to the length of the text is enough. -/
def fixCommasAux : Nat → List Char → List Char
  | 0, l => l
  | _ + 1, [] => []
  | fuel + 1, c :: rest =>
    match matchAt (c :: rest) with
    | some (g, after) =>
      '"' :: ':' :: ' ' :: (g ++ ',' :: ' ' :: '"' :: fixCommasAux fuel after)
    | none => c :: fixCommasAux fuel rest

/-- The separator-repair pass of `parse_level`:
`re.sub(r'\": ([0-9]|[1-9][0-9]|100|\"([a-zA-Z]|[0-9])*\") \"', r'": \1, "', text)`. -/
def fixCommas (l : List Char) : List Char := fixCommasAux l.length l

/-- JSON string escapes as `rapidjson` resolves them (`\uXXXX` escapes are
not needed by the documents considered here and are rejected). -/
def escChar (e : Char) : Option Char :=
  if e = 'n' then some '\n'
  else if e = 't' then some '\t'
  else if e = 'r' then some '\r'
  else if e = '"' then some '"'
  else if e = '\\' then some '\\'
  else if e = '/' then some '/'
  else if e = 'b' then some (Char.ofNat 8)
  else if e = 'f' then some (Char.ofNat 12)
  else none

/-- JSON string-literal body after the opening quote: characters up to the
closing quote, resolving backslash escapes.  Fuel-driven; fuel above the
text length is enough. -/
def parseStringLit : Nat → List Char → Option (List Char × List Char)
  | 0, _ => none
  | _ + 1, [] => none
  | fuel + 1, c :: r =>
    if c = '"' then some ([], r)
    else if c = '\\' then
      match r with
      | e :: r2 =>
        match escChar e with
        | some ec =>
          match parseStringLit fuel r2 with
          | some (s, rest) => some (ec :: s, rest)
          | none => none
        | none => none
      | [] => none
    else
      match parseStringLit fuel r with
      | some (s, rest) => some (c :: s, rest)
      | none => none

/-- JSON number token, restricted to integers: an optional minus and a digit
run, rejecting fraction and exponent forms.  The level documents evaluated
in this development contain only integral numbers, so this restriction of
`rapidjson`'s number grammar does not affect any claim. -/
def parseIntNum (l : List Char) : Option (Int × List Char) :=
  match l with
  | '-' :: r =>
    let ds := r.takeWhile isDigitC
    if ds = [] then none
    else
      match r.drop ds.length with
      | '.' :: _ => none
      | 'e' :: _ => none
      | 'E' :: _ => none
      | rest => some (-(decimalVal ds : Int), rest)
  | _ =>
    let ds := l.takeWhile isDigitC
    if ds = [] then none
    else
      match l.drop ds.length with
      | '.' :: _ => none
      | 'e' :: _ => none
      | 'E' :: _ => none
      | rest => some ((decimalVal ds : Int), rest)

/-- Decoded document values: the untyped, order-preserving mapping that
`rapidjson.loads` produces. -/
inductive JVal where
  | null : JVal
  | bool : Bool → JVal
  | num : Int → JVal
  | str : List Char → JVal
  | arr : List JVal → JVal
  | obj : List (List Char × JVal) → JVal

/-- JSON insignificant whitespace. -/
def skipWs : List Char → List Char
  | [] => []
  | c :: r =>
    if c = ' ' || c = '\t' || c = '\n' || c = '\r' then skipWs r else c :: r

/-- Parser mode: a value, the items of an array, or the members of an
object. -/
inductive JMode where
  | val : JMode
  | arrItems : JMode
  | objItems : JMode

/-- Recursive JSON parser modelling `rapidjson.loads` with
`parse_mode=rapidjson.PM_TRAILING_COMMAS`: standard JSON values, and a
trailing comma before `]` or a closing brace is tolerated (after a comma the
item loop accepts an immediate close).  Fuel bounds the recursion depth;
fuel above the text length is enough. -/
def parseJ : Nat → JMode → List Char → Option (JVal × List Char)
  | 0, _, _ => none
  | fuel + 1, .val, l =>
    match skipWs l with
    | '"' :: r =>
      match parseStringLit (r.length + 1) r with
      | some (s, rest) => some (JVal.str s, rest)
      | none => none
    | 't' :: 'r' :: 'u' :: 'e' :: r => some (JVal.bool true, r)
    | 'f' :: 'a' :: 'l' :: 's' :: 'e' :: r => some (JVal.bool false, r)
    | 'n' :: 'u' :: 'l' :: 'l' :: r => some (JVal.null, r)
    | '[' :: r => parseJ fuel .arrItems (skipWs r)
    | '\x7b' :: r => parseJ fuel .objItems (skipWs r)
    | l2 =>
      match parseIntNum l2 with
      | some (i, rest) => some (JVal.num i, rest)
      | none => none
  | fuel + 1, .arrItems, l =>
    match l with
    | ']' :: r => some (JVal.arr [], r)
    | _ =>
      match parseJ fuel .val l with
      | none => none
      | some (v, rest) =>
        match skipWs rest with
        | ',' :: r2 =>
          match parseJ fuel .arrItems (skipWs r2) with
          | some (JVal.arr vs, rest2) => some (JVal.arr (v :: vs), rest2)
          | _ => none
        | ']' :: r2 => some (JVal.arr [v], r2)
        | _ => none
  | fuel + 1, .objItems, l =>
    match l with
    | '\x7d' :: r => some (JVal.obj [], r)
    | '"' :: r =>
      match parseStringLit (r.length + 1) r with
      | none => none
      | some (k, rest) =>
        match skipWs rest with
        | ':' :: r2 =>
          match parseJ fuel .val r2 with
          | none => none
          | some (v, rest2) =>
            match skipWs rest2 with
            | ',' :: r3 =>
              match parseJ fuel .objItems (skipWs r3) with
              | some (JVal.obj kvs, rest3) =>
                some (JVal.obj ((k, v) :: kvs), rest3)
              | _ => none
            | '\x7d' :: r3 => some (JVal.obj [(k, v)], r3)
            | _ => none
        | _ => none
    | _ => none

/-- Whole-text JSON decode: one value followed only by whitespace. -/
def jsonParse (l : List Char) : Option JVal :=
  match parseJ (l.length + 1) .val l with
  | some (v, rest) => if skipWs rest = [] then some v else none
  | none => none

/-- Embeds the `encoding="utf-8-sig"` file read of `parse_level`: a leading
byte-order mark (U+FEFF, code point 65279) is stripped before any parsing
pass. -/
def stripBOM : List Char → List Char
  | [] => []
  | c :: r => if c.toNat = 65279 then r else c :: r

/-- Embeds `re.sub(r'(\r\n|\n|\r|\t)', '', text)`: every carriage return,
newline and tab character is removed. -/
def stripNewlinesTabs (l : List Char) : List Char :=
  l.filter (fun c => !(c == '\r') && !(c == '\n') && !(c == '\t'))

/-- Embeds `parse_level` from `pyvitals/main.py` on the decoded file text:
BOM strip, separator repair, newline/tab removal, then the trailing-comma
tolerant JSON parse.  `none` models the parse raising. -/
def parse_level (text : List Char) : Option JVal :=
  jsonParse (stripNewlinesTabs (fixCommas (stripBOM text)))

/-- Embeds PyYAML's `Reader.NON_PRINTABLE` class: a character is
non-printable unless it is tab, newline, carriage return, in the printable
ASCII range, NEL, or in the printable BMP/astral ranges
(`\x20-\x7E`, `\x85`, `\xA0-퟿`, `-�`, `\U00010000-\U0010FFFF`). -/
def nonPrintable (c : Char) : Bool :=
  let n := c.toNat
  !(n = 9 || n = 10 || n = 13 || (32 ≤ n && n ≤ 126) || n = 133 ||
    (160 ≤ n && n ≤ 55295) || (57344 ≤ n && n ≤ 65533) ||
    (65536 ≤ n && n ≤ 1114111))

/-- Embeds the sanitization of the fallback branch of `parse_level` in
`py-vitals/main.py`:
`"".join([x for x in fixed_file if not reader.Reader.NON_PRINTABLE.match(x)])`. -/
def stripNonPrintable (text : List Char) : List Char :=
  text.filter (fun c => !(nonPrintable c))

/-- Outcomes of a failed `yaml.safe_load`: `reader.ReaderError` (raised for a
non-printable/special character, carrying its position) or a structural
error (`ScannerError`/`ParserError`, also carrying a position). -/
inductive YamlError where
  | readerError : Nat → YamlError
  | structuralError : Nat → YamlError
deriving DecidableEq, Repr

/-- Embeds the `try`/`except reader.ReaderError` fallback of `parse_level`
in `py-vitals/main.py` (the stage the specification describes as the
sanitization retry).  The external `yaml.safe_load` is a parameter: only
`ReaderError` triggers the retry, the retry parses the sanitized text once
with no nested handler, and any other error propagates immediately. -/
def yamlLoadWithFallback {α : Type} (safeLoad : List Char → Except YamlError α)
    (text : List Char) : Except YamlError α :=
  match safeLoad text with
  | .error (.readerError _) => safeLoad (stripNonPrintable text)
  | r => r

/-- Sample parser used to instantiate the claim C2 theorem: it fails with a
`ReaderError` exactly when the text contains a non-printable character. -/
def c2SampleLoad (l : List Char) : Except YamlError (List Char) :=
  if l.any nonPrintable then .error (.readerError 0) else .ok l

theorem mem_sanitize_foldl (cs : List Char) (l : List Char) (a : Char) :
    a ∈ cs.foldl (fun acc c => acc.filter (fun x => !(x == c))) l ↔
      a ∈ l ∧ ∀ c ∈ cs, a ≠ c := by
  induction cs generalizing l with
  | nil => simp
  | cons c cs ih =>
    simp only [List.foldl_cons, ih, List.mem_filter]
    constructor
    · rintro ⟨⟨h1, h2⟩, h3⟩
      refine ⟨h1, ?_⟩
      intro d hd
      rcases List.mem_cons.mp hd with rfl | hd
      · simpa using h2
      · exact h3 d hd
    · rintro ⟨h1, h2⟩
      refine ⟨⟨h1, ?_⟩, ?_⟩
      · simpa using h2 c (List.mem_cons_self c cs)
      · exact fun d hd => h2 d (List.mem_cons_of_mem c hd)

theorem mem_sanitize (l : List Char) (a : Char) :
    a ∈ sanitize l ↔ a ∈ l ∧ a ∉ illegalChars := by
  unfold sanitize
  rw [mem_sanitize_foldl]
  constructor
  · rintro ⟨h1, h2⟩
    exact ⟨h1, fun hmem => (h2 a hmem) rfl⟩
  · rintro ⟨h1, h2⟩
    exact ⟨h1, fun c hc hac => h2 (hac ▸ hc)⟩

theorem takeWhile_append_of_all {p : Char → Bool} {xs : List Char}
    (h : ∀ c ∈ xs, p c = true) (ys : List Char) :
    (xs ++ ys).takeWhile p = xs ++ ys.takeWhile p := by
  induction xs with
  | nil => simp
  | cons x xs ih =>
    simp only [List.cons_append, List.takeWhile_cons]
    rw [h x (List.mem_cons_self x xs)]
    simp only [ih fun c hc => h c (List.mem_cons_of_mem x hc)]
    simp

theorem rdzip_suffix_afterLastSlash {url : List Char}
    (h : ".rdzip".data <:+ url) : ".rdzip".data <:+ afterLastSlash url := by
  unfold afterLastSlash
  rw [← List.reverse_prefix]
  rw [List.reverse_reverse]
  rw [← List.reverse_prefix] at h
  obtain ⟨t, ht⟩ := h
  rw [← ht]
  rw [takeWhile_append_of_all (by decide)]
  exact ⟨(List.takeWhile (fun c => !(c == '/')) t), rfl⟩

/-- Claim C7 counterexample: the resolver can succeed with an empty filename.
With a URL that does not end in `.rdzip` and the header `filename=`, the bare
alternative captures the empty string and sanitization keeps it empty, so the
claimed non-emptiness invariant fails. -/
theorem c7_empty_filename_possible :
    get_filename "https://example.com/file".data (some "filename=".data) =
      .ok [] := by
  rfl

/-- Claim C7 (amended): whenever `get_filename` succeeds, the resolved name
contains no path separator (`/` and `\` are both in the sanitized-away set),
and in the `.rdzip`-URL branch the name is additionally non-empty; but the
name can be empty in the header branch. -/
theorem c7_no_path_separators (url : List Char) (cd : Option (List Char))
    (name : List Char) (h : get_filename url cd = .ok name) :
    ('/' ∉ name ∧ '\\' ∉ name) ∧
      (".rdzip".data.isSuffixOf url = true → name ≠ []) := by
  unfold get_filename at h
  by_cases hsuf : ".rdzip".data.isSuffixOf url = true
  · rw [if_pos hsuf] at h
    obtain rfl : sanitize (afterLastSlash url) = name := by
      injection h
    refine ⟨⟨?_, ?_⟩, ?_⟩
    · intro hmem
      exact absurd ((mem_sanitize _ _).mp hmem).2 (by decide)
    · intro hmem
      exact absurd ((mem_sanitize _ _).mp hmem).2 (by decide)
    · intro _ hempty
      have hsuf2 : ".rdzip".data <:+ afterLastSlash url :=
        rdzip_suffix_afterLastSlash (List.isSuffixOf_iff_suffix.mp hsuf)
      have hr : 'r' ∈ afterLastSlash url := hsuf2.mem (by decide)
      have : 'r' ∈ sanitize (afterLastSlash url) :=
        (mem_sanitize _ _).mpr ⟨hr, by decide⟩
      rw [hempty] at this
      simp at this
  · rw [if_neg hsuf] at h
    refine ⟨?_, fun hs => absurd hs hsuf⟩
    rcases cd with _ | hdr
    · simp at h
    · simp only at h
      rcases hcs : cdSearch hdr with _ | g
      · rw [hcs] at h
        simp at h
      · rw [hcs] at h
        obtain rfl : sanitize g = name := by injection h
        constructor
        · intro hmem
          exact absurd ((mem_sanitize _ _).mp hmem).2 (by decide)
        · intro hmem
          exact absurd ((mem_sanitize _ _).mp hmem).2 (by decide)

/-- Claim C7 witness: a concrete successful resolution, instantiating the
theorem at a `.rdzip` URL. -/
theorem c7_no_path_separators_witness :
    ('/' ∉ "levelA.rdzip".data ∧ '\\' ∉ "levelA.rdzip".data) ∧
      (".rdzip".data.isSuffixOf "https://host/levelA.rdzip".data = true →
        "levelA.rdzip".data ≠ []) :=
  c7_no_path_separators "https://host/levelA.rdzip".data none
    "levelA.rdzip".data (by rfl)

/-- Claim C6 counterexample: a URL whose last path segment ignoring the query
string ends in `.rdzip`, but whose full URL text does not.  The code tests
`url.endswith('.rdzip')` on the whole URL, so it takes the header branch and,
with no header available, raises `BadURLFilename` instead of returning the
path segment `level.rdzip`. -/
theorem c6_query_url_not_resolved_from_path :
    get_filename "https://example.com/level.rdzip?download=true".data none =
        .error (PyExc.badURLFilename
          "https://example.com/level.rdzip?download=true".data) ∧
      get_filename "https://example.com/level.rdzip?download=true".data none ≠
        .ok "level.rdzip".data := by
  constructor
  · rfl
  · intro h
    rw [show get_filename "https://example.com/level.rdzip?download=true".data
        none = .error (PyExc.badURLFilename
          "https://example.com/level.rdzip?download=true".data) from rfl] at h
    exact Except.noConfusion h

/-- Claim C6 (amended): for every URL whose full text ends with `.rdzip`
(query string included), `get_filename` returns the segment after the last
slash with the illegal characters removed, and the result does not depend on
the Content-Disposition header at all. -/
theorem c6_rdzip_url_uses_last_segment (url : List Char)
    (cd cd2 : Option (List Char)) (h : ".rdzip".data.isSuffixOf url = true) :
    get_filename url cd = .ok (sanitize (afterLastSlash url)) ∧
      get_filename url cd = get_filename url cd2 := by
  unfold get_filename
  rw [if_pos h, if_pos h]
  exact ⟨rfl, rfl⟩

/-- Claim C6 witness: the amended theorem applied at a concrete `.rdzip` URL
with two different headers. -/
theorem c6_rdzip_url_uses_last_segment_witness :
    get_filename "https://cdn.example/levels/My Level.rdzip".data none =
        .ok (sanitize (afterLastSlash "https://cdn.example/levels/My Level.rdzip".data)) ∧
      get_filename "https://cdn.example/levels/My Level.rdzip".data none =
        get_filename "https://cdn.example/levels/My Level.rdzip".data
          (some "filename=other".data) :=
  c6_rdzip_url_uses_last_segment "https://cdn.example/levels/My Level.rdzip".data
    none (some "filename=other".data) (by rfl)

/-- Claim C10: a single-quoted Content-Disposition filename keeps its quotes
(the regex group includes the quote characters and only the double quote is
in the illegal set), while a double-quoted one loses them. -/
theorem c10_single_quotes_retained :
    get_filename "https://example.com/file".data
        (some ("attachment; filename=".data ++
          (singleQuoteChar :: "a.rdzip".data ++ [singleQuoteChar]))) =
      .ok (singleQuoteChar :: "a.rdzip".data ++ [singleQuoteChar]) ∧
    get_filename "https://example.com/file".data
        (some "attachment; filename=\"b.rdzip\"".data) =
      .ok "b.rdzip".data := by
  constructor
  · rfl
  · rfl

theorem decimalDigitChar_toNat {n : Nat} (h : n < 10) :
    (decimalDigitChar n).toNat = 48 + n := by
  interval_cases n <;> decide

theorem decimalVal_foldl (ys : List Char) (a : Nat) :
    ys.foldl (fun a c => a * 10 + (c.toNat - 48)) a =
      a * 10 ^ ys.length + decimalVal ys := by
  induction ys generalizing a with
  | nil => simp [decimalVal]
  | cons c tl ih =>
    simp only [List.foldl_cons, List.length_cons]
    rw [ih]
    have hv : decimalVal (c :: tl) =
        (0 * 10 + (c.toNat - 48)) * 10 ^ tl.length + decimalVal tl := by
      unfold decimalVal
      rw [List.foldl_cons, ih]
      rfl
    rw [hv]
    ring

theorem decimalVal_cons (c : Char) (acc : List Char) :
    decimalVal (c :: acc) =
      (c.toNat - 48) * 10 ^ acc.length + decimalVal acc := by
  unfold decimalVal
  rw [List.foldl_cons, decimalVal_foldl]
  have : (0 * 10 + (c.toNat - 48)) = c.toNat - 48 := by omega
  rw [this]
  rfl

theorem decimalVal_natDecimalAux :
    ∀ (fuel n : Nat) (acc : List Char), n < fuel →
      decimalVal (natDecimalAux fuel n acc) =
        n * 10 ^ acc.length + decimalVal acc := by
  intro fuel
  induction fuel with
  | zero => intro n acc h; omega
  | succ fuel ih =>
    intro n acc h
    by_cases h10 : n < 10
    · simp only [natDecimalAux, if_pos h10]
      rw [decimalVal_cons, decimalDigitChar_toNat h10]
      have he : 48 + n - 48 = n := by omega
      rw [he]
    · simp only [natDecimalAux, if_neg h10]
      have hdiv : n / 10 < fuel := by
        have h1 : n / 10 < n := Nat.div_lt_self (by omega) (by omega)
        omega
      rw [ih (n / 10) (decimalDigitChar (n % 10) :: acc) hdiv]
      rw [decimalVal_cons, decimalDigitChar_toNat (Nat.mod_lt n (by omega))]
      have h48 : 48 + n % 10 - 48 = n % 10 := by omega
      rw [h48]
      simp only [List.length_cons]
      have hnm : 10 * (n / 10) + n % 10 = n := Nat.div_add_mod n 10
      have hkey : n / 10 * 10 ^ (acc.length + 1) + n % 10 * 10 ^ acc.length =
          n * 10 ^ acc.length := by
        calc n / 10 * 10 ^ (acc.length + 1) + n % 10 * 10 ^ acc.length
            = (10 * (n / 10) + n % 10) * 10 ^ acc.length := by ring
          _ = n * 10 ^ acc.length := by rw [hnm]
      linarith [hkey]

theorem decimalVal_natDecimal (n : Nat) : decimalVal (natDecimal n) = n := by
  unfold natDecimal
  rw [decimalVal_natDecimalAux (n + 1) n [] (Nat.lt_succ_self n)]
  simp [decimalVal]

theorem natDecimal_injective : Function.Injective natDecimal := by
  intro a b h
  have := congrArg decimalVal h
  rwa [decimalVal_natDecimal, decimalVal_natDecimal] at this

theorem candidate_injective (p : FPath) : Function.Injective (candidate p) := by
  intro a b h
  have hstem : candidateStem p a = candidateStem p b := congrArg FPath.stem h
  unfold candidateStem at hstem
  have h2 := List.append_cancel_left hstem
  have h3 : natDecimal a ++ [')'] = natDecimal b ++ [')'] := by
    injection h2 with _ h2'
    injection h2' with _ h2''
  exact natDecimal_injective (List.append_cancel_right h3)

theorem exists_free_candidate (existing : List FPath) (p : FPath) :
    ∃ k, k < existing.length + 1 ∧ candidate p (2 + k) ∉ existing := by
  by_contra hcon
  push_neg at hcon
  set L := (List.range (existing.length + 1)).map (fun k => candidate p (2 + k))
    with hL
  have hnodup : L.Nodup := by
    refine List.Nodup.map ?_ (List.nodup_range _)
    intro a b hab
    have := candidate_injective p hab
    omega
  have hsub : ∀ x ∈ L, x ∈ existing := by
    intro x hx
    rw [hL] at hx
    obtain ⟨k, hk, rfl⟩ := List.mem_map.mp hx
    exact hcon k (List.mem_range.mp hk)
  have hlen : L.length = existing.length + 1 := by
    rw [hL, List.length_map, List.length_range]
  have hcard1 : L.toFinset.card = existing.length + 1 := by
    rw [List.toFinset_card_of_nodup hnodup, hlen]
  have hcard2 : L.toFinset.card ≤ existing.length := by
    calc L.toFinset.card ≤ existing.toFinset.card := by
          apply Finset.card_le_card
          intro x hx
          exact List.mem_toFinset.mpr (hsub x (List.mem_toFinset.mp hx))
      _ ≤ existing.length := List.toFinset_card_le existing
  omega

theorem renameLoop_spec (existing : List FPath) (p : FPath) :
    ∀ (fuel index : Nat),
      (∃ k, k < fuel ∧ candidate p (index + k) ∉ existing) →
      candidate p (renameLoop existing p fuel index) ∉ existing ∧
        index ≤ renameLoop existing p fuel index ∧
        ∀ m, index ≤ m → m < renameLoop existing p fuel index →
          candidate p m ∈ existing := by
  intro fuel
  induction fuel with
  | zero =>
    intro index h
    obtain ⟨k, hk, _⟩ := h
    omega
  | succ fuel ih =>
    intro index h
    have hstep : renameLoop existing p (fuel + 1) index =
        if candidate p index ∈ existing then
          renameLoop existing p fuel (index + 1)
        else index := by
      simp only [renameLoop]
    by_cases hmem : candidate p index ∈ existing
    · rw [if_pos hmem] at hstep
      obtain ⟨k, hk, hfree⟩ := h
      have hk0 : k ≠ 0 := by
        intro h0
        rw [h0, Nat.add_zero] at hfree
        exact hfree hmem
      obtain ⟨k', rfl⟩ : ∃ k', k = k' + 1 := ⟨k - 1, by omega⟩
      have hshift : index + (k' + 1) = (index + 1) + k' := by omega
      rw [hshift] at hfree
      obtain ⟨h1, h2, h3⟩ := ih (index + 1) ⟨k', by omega, hfree⟩
      rw [hstep]
      refine ⟨h1, by omega, ?_⟩
      intro m hm1 hm2
      by_cases hmi : m = index
      · rw [hmi]; exact hmem
      · exact h3 m (by omega) hm2
    · rw [if_neg hmem] at hstep
      rw [hstep]
      exact ⟨hmem, Nat.le_refl index, fun m hm1 hm2 => by omega⟩

/-- Claim C5: the path allocator returns any non-existing desired path
unchanged; otherwise it returns the candidate `"{stem} ({n}){ext}"` for the
least `n ≥ 2` whose candidate does not exist: below the first free index `n`
every candidate is taken, at `n` it is free, and the result is exactly
candidate `n`.  The allocator consults only the current filesystem state, so
the "lowest available index, not cached" behaviour of the claim follows. -/
theorem c5_rename_allocator (existing : List FPath) (p : FPath) :
    (p ∉ existing → rename existing p = p) ∧
      (∀ n, p ∈ existing → 2 ≤ n → candidate p n ∉ existing →
        (∀ m, 2 ≤ m → m < n → candidate p m ∈ existing) →
        rename existing p = candidate p n) := by
  constructor
  · intro hnot
    unfold rename
    rw [if_neg hnot]
  · intro n hmem h2 hfree hbelow
    unfold rename
    rw [if_pos hmem]
    obtain ⟨k, hk, hkfree⟩ := exists_free_candidate existing p
    obtain ⟨h1, hle, h3⟩ := renameLoop_spec existing p (existing.length + 1) 2
      ⟨k, hk, hkfree⟩
    set res := renameLoop existing p (existing.length + 1) 2 with hres
    have hnn : ¬ res < n := fun hlt => h1 (hbelow res hle hlt)
    have hnn2 : ¬ n < res := fun hlt => hfree (h3 n h2 hlt)
    have : res = n := by omega
    rw [this]

/-- Claim C5 witness: with `p`, `p (2)`, `p (3)` existing the allocator
returns `p (4)`; after deleting `p (3)` a fresh call returns `p (3)`. -/
theorem c5_rename_allocator_witness :
    rename c5Existing1 c5SamplePath = candidate c5SamplePath 4 ∧
      rename c5Existing2 c5SamplePath = candidate c5SamplePath 3 := by
  constructor
  · refine (c5_rename_allocator c5Existing1 c5SamplePath).2 4 (by decide)
      (by decide) (by decide) ?_
    intro m h2 h4
    interval_cases m <;> decide
  · refine (c5_rename_allocator c5Existing2 c5SamplePath).2 3 (by decide)
      (by decide) (by decide) ?_
    intro m h2 h3
    interval_cases m <;> decide

theorem fsErase_fsSet (fs : FS) (p : FPath) (content : List Nat) :
    fsErase (fsSet fs p content) p = fsErase fs p := by
  simp only [fsErase, fsSet, List.filter_cons]
  simp [List.filter_filter]

theorem fsHas_fsErase (fs : FS) (p : FPath) : fsHas (fsErase fs p) p = false := by
  unfold fsHas fsErase
  rw [Bool.eq_false_iff]
  intro h
  obtain ⟨e, hmem, hbeq⟩ := List.any_eq_true.mp h
  obtain ⟨-, h2⟩ := List.mem_filter.mp hmem
  rw [hbeq] at h2
  simp at h2

theorem fsHas_fsSet (fs : FS) (p : FPath) (content : List Nat) :
    fsHas (fsSet fs p content) p = true := by
  unfold fsHas fsSet
  rw [List.any_cons]
  simp

theorem fsGet_fsSet (fs : FS) (p : FPath) (content : List Nat) :
    fsGet (fsSet fs p content) p = some content := by
  unfold fsGet fsSet
  rw [List.find?_cons]
  simp

theorem writeChunks_error (fp : FPath) (fs : FS) (e : PyExc)
    (rest : List (Except PyExc (List Nat))) :
    ∀ (pre : List (List Nat)) (acc : List Nat),
      writeChunks fp fs acc (pre.map Except.ok ++ Except.error e :: rest) =
        (.error e,
          if isExceptionSubclass e then fsErase fs fp
          else fsSet fs fp (pre.foldl (fun a b => a ++ b) acc)) := by
  intro pre
  induction pre with
  | nil =>
    intro acc
    simp only [List.map_nil, List.nil_append, List.foldl_nil]
    show (if isExceptionSubclass e then
        (Except.error e, fsErase (fsSet fs fp acc) fp)
      else (Except.error e, fsSet fs fp acc)) = _
    by_cases hexc : isExceptionSubclass e
    · rw [if_pos hexc, if_pos hexc, fsErase_fsSet]
    · rw [if_neg hexc, if_neg hexc]
  | cons b pre ih =>
    intro acc
    simp only [List.map_cons, List.cons_append, List.foldl_cons]
    exact ih (acc ++ b)

/-- Claim C3: when the streamed write raises an I/O error (an `OSError`,
which is an `Exception` subclass), the partially written file is unlinked
before the error propagates, so no truncated artifact remains; and an HTTP
error status makes `download_level` raise with the filesystem untouched,
before any byte is written. -/
theorem c3_download_cleanup (fs : FS) (status : Nat) (url : List Char)
    (cd : Option (List Char)) (dir : List Char) (filename : Option (List Char))
    (fp : FPath) (pre : List (List Nat)) (rest : List (Except PyExc (List Nat)))
    (hst : status < 400)
    (hfp : resolveFullPath fs url cd dir filename = .ok fp) :
    ((download_level fs status url cd
        (pre.map Except.ok ++ Except.error PyExc.osError :: rest) dir filename).1 =
      .error PyExc.osError ∧
      fsHas (download_level fs status url cd
        (pre.map Except.ok ++ Except.error PyExc.osError :: rest) dir filename).2
        fp = false) ∧
      ∀ (fs2 : FS) (st2 : Nat) (url2 : List Char) (cd2 : Option (List Char))
        (chunks2 : List (Except PyExc (List Nat))) (dir2 : List Char)
        (fn2 : Option (List Char)), 400 ≤ st2 →
        download_level fs2 st2 url2 cd2 chunks2 dir2 fn2 =
          (.error PyExc.httpStatusError, fs2) := by
  constructor
  · have hred : download_level fs status url cd
        (pre.map Except.ok ++ Except.error PyExc.osError :: rest) dir filename =
        (match writeChunks fp fs []
            (pre.map Except.ok ++ Except.error PyExc.osError :: rest) with
          | (.ok _, fs2) => (.ok fp, fs2)
          | (.error e, fs2) => (.error e, fs2)) := by
      unfold download_level
      rw [if_neg (by omega), hfp]
    rw [hred, writeChunks_error fp fs PyExc.osError rest pre []]
    refine ⟨rfl, ?_⟩
    show fsHas (fsErase fs fp) fp = false
    exact fsHas_fsErase fs fp
  · intro fs2 st2 url2 cd2 chunks2 dir2 fn2 h
    unfold download_level
    rw [if_pos h]

/-- Claim C3 witness: a concrete failed download (one good chunk, then an
`OSError`) leaves no file, and a concrete 404 response fails with the
filesystem untouched. -/
theorem c3_download_cleanup_witness :
    ((download_level [] 200 "https://example.com/a".data none
        ([[5]].map Except.ok ++ Except.error PyExc.osError :: [])
        "downloads".data (some "x.rdzip".data)).1 = .error PyExc.osError ∧
      fsHas (download_level [] 200 "https://example.com/a".data none
        ([[5]].map Except.ok ++ Except.error PyExc.osError :: [])
        "downloads".data (some "x.rdzip".data)).2
        (mkPath "downloads".data "x.rdzip".data) = false) ∧
      download_level [] 404 "https://example.com/a".data none []
        "downloads".data none = (.error PyExc.httpStatusError, []) := by
  have h := c3_download_cleanup [] 200 "https://example.com/a".data none
    "downloads".data (some "x.rdzip".data)
    (mkPath "downloads".data "x.rdzip".data) [[5]] [] (by omega) (by rfl)
  exact ⟨h.1, h.2 [] 404 "https://example.com/a".data none [] "downloads".data
    none (by omega)⟩

/-- Claim C8 counterexample: a cancellation arriving mid-stream is a
`BaseException`, which `except Exception` does not catch, so the partially
written file is still on disk (with the bytes written so far) when the
cancellation reaches the caller — contradicting the claim that the partial
file is removed before the cancellation is observed. -/
theorem c8_cancellation_leaves_partial_file :
    (download_level [] 200 "https://example.com/x".data none
        [Except.ok [1, 2], Except.error PyExc.cancelledError]
        "downloads".data (some "level.rdzip".data)).1 =
      .error PyExc.cancelledError ∧
    fsHas (download_level [] 200 "https://example.com/x".data none
        [Except.ok [1, 2], Except.error PyExc.cancelledError]
        "downloads".data (some "level.rdzip".data)).2
      (mkPath "downloads".data "level.rdzip".data) = true ∧
    fsGet (download_level [] 200 "https://example.com/x".data none
        [Except.ok [1, 2], Except.error PyExc.cancelledError]
        "downloads".data (some "level.rdzip".data)).2
      (mkPath "downloads".data "level.rdzip".data) = some [1, 2] := by
  refine ⟨rfl, ?_, ?_⟩ <;> decide

/-- Claim C8 (amended): cleanup-on-abort holds only for `Exception`-derived
failures (claim C3); a cancellation (`CancelledError`, which derives from
`BaseException` on Python 3.8+, like `KeyboardInterrupt` in the blocking
style) bypasses the `except Exception` handler in both call styles, the
download fails with the cancellation, and the partially written file remains
on disk with the bytes written so far. -/
theorem c8_cleanup_only_for_exceptions (fs : FS) (status : Nat)
    (url : List Char) (cd : Option (List Char)) (dir : List Char)
    (filename : Option (List Char)) (fp : FPath) (pre : List (List Nat))
    (rest : List (Except PyExc (List Nat)))
    (hst : status < 400)
    (hfp : resolveFullPath fs url cd dir filename = .ok fp) :
    (download_level fs status url cd
        (pre.map Except.ok ++ Except.error PyExc.cancelledError :: rest) dir
        filename).1 = .error PyExc.cancelledError ∧
      fsGet (download_level fs status url cd
        (pre.map Except.ok ++ Except.error PyExc.cancelledError :: rest) dir
        filename).2 fp = some (pre.foldl (fun a b => a ++ b) []) := by
  have hred : download_level fs status url cd
      (pre.map Except.ok ++ Except.error PyExc.cancelledError :: rest) dir
      filename =
      (match writeChunks fp fs []
          (pre.map Except.ok ++ Except.error PyExc.cancelledError :: rest) with
        | (.ok _, fs2) => (.ok fp, fs2)
        | (.error e, fs2) => (.error e, fs2)) := by
    unfold download_level
    rw [if_neg (by omega), hfp]
  rw [hred, writeChunks_error fp fs PyExc.cancelledError rest pre []]
  refine ⟨rfl, ?_⟩
  show fsGet (fsSet fs fp (pre.foldl (fun a b => a ++ b) [])) fp = _
  rw [fsGet_fsSet]

/-- Claim C8 witness: the amended theorem applied to a concrete cancelled
download. -/
theorem c8_cleanup_only_for_exceptions_witness :
    (download_level [] 200 "https://example.com/y".data none
        ([[7]].map Except.ok ++ Except.error PyExc.cancelledError :: [])
        "downloads".data (some "y.rdzip".data)).1 =
      .error PyExc.cancelledError ∧
      fsGet (download_level [] 200 "https://example.com/y".data none
        ([[7]].map Except.ok ++ Except.error PyExc.cancelledError :: [])
        "downloads".data (some "y.rdzip".data)).2
        (mkPath "downloads".data "y.rdzip".data) =
        some ([[7]].foldl (fun a b => a ++ b) []) :=
  c8_cleanup_only_for_exceptions [] 200 "https://example.com/y".data none
    "downloads".data (some "y.rdzip".data)
    (mkPath "downloads".data "y.rdzip".data) [[7]] [] (by omega) (by rfl)

/-- Claim C4: a non-archive input fails with `BadRDZipFile` carrying the
offending path; an `OSError` during unpacking (filesystem-hostile entries)
is caught and re-raised as `BadRDZipFile` with the same path; and no call
ever propagates a raw `OSError` to the caller. -/
theorem c4_unzip_invalid_archive (isZip : Bool) (extract : Except PyExc Unit)
    (input : FPath) :
    (isZip = false →
      unzip_level isZip extract input = .error (.badRDZipFile input)) ∧
      (extract = .error PyExc.osError →
        unzip_level isZip extract input = .error (.badRDZipFile input)) ∧
      unzip_level isZip extract input ≠ .error PyExc.osError := by
  refine ⟨?_, ?_, ?_⟩
  · intro h
    rw [h]
    rfl
  · intro h
    rw [h]
    cases isZip <;> rfl
  · intro h
    cases isZip with
    | false => simp [unzip_level] at h
    | true =>
      rcases extract with e | u
      · cases e <;> simp [unzip_level] at h
      · simp [unzip_level] at h

/-- Claim C4 witness: a non-archive input and a hostile-entry `OSError`, both
reported as `BadRDZipFile` with the offending path. -/
theorem c4_unzip_invalid_archive_witness :
    unzip_level false (.ok ()) c4SamplePath =
        .error (.badRDZipFile c4SamplePath) ∧
      unzip_level true (.error PyExc.osError) c4SamplePath =
        .error (.badRDZipFile c4SamplePath) ∧
      unzip_level true (.error PyExc.badZipFile) c4SamplePath ≠
        .error PyExc.osError :=
  ⟨(c4_unzip_invalid_archive false (.ok ()) c4SamplePath).1 rfl,
    (c4_unzip_invalid_archive true (.error PyExc.osError) c4SamplePath).2.1 rfl,
    (c4_unzip_invalid_archive true (.error PyExc.badZipFile) c4SamplePath).2.2⟩

theorem isDigitC_bounds {c : Char} (h : isDigitC c = true) :
    48 ≤ c.toNat ∧ c.toNat ≤ 57 := by
  unfold isDigitC at h
  rw [Bool.and_eq_true, decide_eq_true_eq, decide_eq_true_eq] at h
  obtain ⟨h1, h2⟩ := h
  rw [Char.le_def] at h1 h2
  exact ⟨h1, h2⟩

theorem isNonzeroDigitC_bounds {c : Char} (h : isNonzeroDigitC c = true) :
    49 ≤ c.toNat ∧ c.toNat ≤ 57 := by
  unfold isNonzeroDigitC at h
  rw [Bool.and_eq_true, decide_eq_true_eq, decide_eq_true_eq] at h
  obtain ⟨h1, h2⟩ := h
  rw [Char.le_def] at h1 h2
  exact ⟨h1, h2⟩

theorem decimalDigitChar_roundtrip {d : Char} (h : 48 ≤ d.toNat)
    (h2 : d.toNat ≤ 57) : decimalDigitChar (d.toNat - 48) = d := by
  unfold decimalDigitChar
  have he : 48 + (d.toNat - 48) = d.toNat := by omega
  rw [he, Char.ofNat_toNat]

theorem natDecimal_lt10 {n : Nat} (h : n < 10) :
    natDecimal n = [decimalDigitChar n] := by
  unfold natDecimal
  simp only [natDecimalAux, if_pos h]

theorem natDecimal_two_digits {n : Nat} (h1 : 10 ≤ n) (h2 : n < 100) :
    natDecimal n = [decimalDigitChar (n / 10), decimalDigitChar (n % 10)] := by
  unfold natDecimal
  obtain ⟨m, rfl⟩ : ∃ m, n = m + 1 := ⟨n - 1, by omega⟩
  simp only [natDecimalAux, if_neg (by omega : ¬ m + 1 < 10)]
  have hlt : (m + 1) / 10 < 10 := by omega
  simp only [natDecimalAux, if_pos hlt]

theorem natDecimal_100 : natDecimal 100 = ['1', '0', '0'] := by decide

theorem alt1_group {l g r} (h : alt1 l = some (g, r)) : specValue g := by
  unfold alt1 at h
  split at h
  · split at h
    · next d s q r0 hguard =>
      rw [Bool.and_eq_true, Bool.and_eq_true] at hguard
      obtain ⟨⟨hd, -⟩, -⟩ := hguard
      simp only [Option.some_inj, Prod.mk.injEq] at h
      obtain ⟨hg, -⟩ := h
      obtain ⟨hb1, hb2⟩ := isDigitC_bounds hd
      left
      refine ⟨d.toNat - 48, by omega, ?_⟩
      rw [natDecimal_lt10 (by omega), decimalDigitChar_roundtrip hb1 hb2, hg]
    · exact absurd h (by simp)
  · exact absurd h (by simp)

theorem alt2_group {l g r} (h : alt2 l = some (g, r)) : specValue g := by
  unfold alt2 at h
  split at h
  · split at h
    · next d1 d2 s q r0 hguard =>
      rw [Bool.and_eq_true, Bool.and_eq_true, Bool.and_eq_true] at hguard
      obtain ⟨⟨⟨hd1, hd2⟩, -⟩, -⟩ := hguard
      simp only [Option.some_inj, Prod.mk.injEq] at h
      obtain ⟨hg, -⟩ := h
      obtain ⟨ha1, ha2⟩ := isNonzeroDigitC_bounds hd1
      obtain ⟨hb1, hb2⟩ := isDigitC_bounds hd2
      left
      set n := (d1.toNat - 48) * 10 + (d2.toNat - 48) with hn
      refine ⟨n, by omega, ?_⟩
      have hdiv : n / 10 = d1.toNat - 48 := by omega
      have hmod : n % 10 = d2.toNat - 48 := by omega
      rw [natDecimal_two_digits (by omega) (by omega), hdiv, hmod,
        decimalDigitChar_roundtrip (by omega) ha2,
        decimalDigitChar_roundtrip hb1 hb2, hg]
    · exact absurd h (by simp)
  · exact absurd h (by simp)

theorem alt3_group {l g r} (h : alt3 l = some (g, r)) : specValue g := by
  unfold alt3 at h
  split at h
  · split at h
    · simp only [Option.some_inj, Prod.mk.injEq] at h
      obtain ⟨hg, -⟩ := h
      left
      exact ⟨100, by omega, by rw [natDecimal_100, hg]⟩
    · exact absurd h (by simp)
  · exact absurd h (by simp)

theorem stringAlt_group {l g r} (h : stringAlt l = some (g, r)) : specValue g := by
  unfold stringAlt at h
  split at h
  · split at h
    · simp only [Option.some_inj, Prod.mk.injEq] at h
      obtain ⟨hg, -⟩ := h
      right
      exact ⟨l.takeWhile isAlnumC, hg.symm, fun c hc => List.mem_takeWhile_imp hc⟩
    · exact absurd h (by simp)
  · exact absurd h (by simp)

theorem digitAlts_group {l g r} (h : digitAlts l = some (g, r)) :
    specValue g := by
  unfold digitAlts at h
  cases h1 : alt1 l with
  | some v =>
    rw [h1] at h
    simp only at h
    exact alt1_group (h1.trans h)
  | none =>
    rw [h1] at h
    simp only at h
    cases h2 : alt2 l with
    | some v =>
      rw [h2] at h
      simp only at h
      exact alt2_group (h2.trans h)
    | none =>
      rw [h2] at h
      simp only at h
      exact alt3_group h

theorem tryValue_group {l g r} (h : tryValue l = some (g, r)) : specValue g := by
  rcases l with _ | ⟨c, rest⟩
  · exact absurd h (by simp [tryValue, digitAlts, alt1, alt2, alt3])
  · by_cases hc : c = '"'
    · subst hc
      exact stringAlt_group h
    · unfold tryValue at h
      split at h
      · next heq =>
        injection heq with heq1 _
        exact absurd heq1 hc
      · exact digitAlts_group h

theorem matchAt_group {l g r} (h : matchAt l = some (g, r)) : specValue g := by
  unfold matchAt at h
  split at h
  · exact tryValue_group h
  · exact absurd h (by simp)

theorem dropWhile_append_all {p : Char → Bool} {xs : List Char}
    (h : ∀ c ∈ xs, p c = true) (ys : List Char) :
    (xs ++ ys).dropWhile p = ys.dropWhile p := by
  induction xs with
  | nil => simp
  | cons x xs ih =>
    simp only [List.cons_append, List.dropWhile_cons]
    rw [h x (List.mem_cons_self x xs)]
    exact ih fun c hc => h c (List.mem_cons_of_mem x hc)

theorem matchAt_characterization (g r : List Char) :
    matchAt ('"' :: ':' :: ' ' :: (g ++ ' ' :: '"' :: r)) = some (g, r) ↔
      specValue g := by
  constructor
  · exact fun h => matchAt_group h
  · intro hs
    rcases hs with ⟨n, hn, rfl⟩ | ⟨mid, rfl, hmid⟩
    · interval_cases n <;> rfl
    · have hassoc : ('"' :: (mid ++ ['"'])) ++ ' ' :: '"' :: r =
          '"' :: (mid ++ ('"' :: ' ' :: '"' :: r)) := by simp
      rw [hassoc]
      show tryValue ('"' :: (mid ++ ('"' :: ' ' :: '"' :: r))) = _
      show stringAlt (mid ++ ('"' :: ' ' :: '"' :: r)) = _
      unfold stringAlt
      rw [dropWhile_append_all hmid, takeWhile_append_of_all hmid]
      have hq : isAlnumC '"' = false := rfl
      simp only [List.dropWhile_cons, List.takeWhile_cons, hq,
        Bool.false_eq_true, if_false]
      simp

/-- Claim C1 counterexample: the repair regex has no array alternative, so a
bounded integer array (elements in `[0, 3]`) followed by a key-quote is left
unrepaired, and the document fails to decode instead of yielding sibling
keys. -/
theorem c1_array_value_not_repaired :
    fixCommas "\x7b\"a\": [0, 1] \"b\": 2\x7d".data =
        "\x7b\"a\": [0, 1] \"b\": 2\x7d".data ∧
      parse_level "\x7b\"a\": [0, 1] \"b\": 2\x7d".data = none :=
  ⟨rfl, rfl⟩

/-- Claim C1 (amended): the repair inserts a comma between a value token and
an immediately following key-quote exactly when the value token is an
integer in `[0, 100]` in canonical decimal form or a quoted alphanumeric
string — bounded integer arrays are not matched; and decoding the document
containing the fragment `"difficulty": 5 "tags": "abc"` yields a document
with `difficulty == 5` and `tags == "abc"` as sibling keys. -/
theorem c1_separator_repair (g r : List Char) :
    (matchAt ('"' :: ':' :: ' ' :: (g ++ ' ' :: '"' :: r)) = some (g, r) ↔
      specValue g) ∧
      parse_level "\x7b\"difficulty\": 5 \"tags\": \"abc\"\x7d".data =
        some (JVal.obj
          [("difficulty".data, JVal.num 5), ("tags".data, JVal.str "abc".data)]) :=
  ⟨matchAt_characterization g r, rfl⟩

/-- Claim C9: the separator repair runs on the raw document text with no
awareness of string-literal boundaries.  In the valid document
`{"a": "see \": 5 ", "b": 1}` the raw characters `": 5 "` inside the string
value of `"a"` match the repair pattern (the escaped quote supplies the
pattern's leading quote and the string's closing delimiter its trailing
one), so the repair inserts a comma inside the string: the document decodes
to `a == "see \": 5 "` without the repair but to `a == "see \": 5, "`
through `parse_level`, a different string. -/
theorem c9_repair_corrupts_string_value :
    jsonParse "\x7b\"a\": \"see \\\": 5 \", \"b\": 1\x7d".data =
        some (JVal.obj
          [("a".data, JVal.str "see \": 5 ".data), ("b".data, JVal.num 1)]) ∧
      parse_level "\x7b\"a\": \"see \\\": 5 \", \"b\": 1\x7d".data =
        some (JVal.obj
          [("a".data, JVal.str "see \": 5, ".data), ("b".data, JVal.num 1)]) ∧
      "see \": 5 ".data ≠ "see \": 5, ".data :=
  ⟨rfl, rfl, by decide⟩

/-- Claim C2: when the structural parse fails with the error class raised
for an invalid/non-printable character (`ReaderError`), the decoder strips
every non-printable character and retries the parse exactly once, and the
retry's outcome — success or terminal failure with its position — is final;
a structural error not attributable to invalid characters propagates
immediately with no sanitization retry; and the sanitization removes
exactly the characters classified as non-printable. -/
theorem c2_sanitization_retry_once {α : Type}
    (safeLoad : List Char → Except YamlError α) (text : List Char) :
    (∀ pos, safeLoad text = .error (.readerError pos) →
      yamlLoadWithFallback safeLoad text = safeLoad (stripNonPrintable text)) ∧
      (∀ pos, safeLoad text = .error (.structuralError pos) →
        yamlLoadWithFallback safeLoad text = .error (.structuralError pos)) ∧
      (∀ v, safeLoad text = .ok v →
        yamlLoadWithFallback safeLoad text = .ok v) ∧
      (∀ c, c ∈ stripNonPrintable text ↔ c ∈ text ∧ nonPrintable c = false) := by
  refine ⟨?_, ?_, ?_, ?_⟩
  · intro pos h
    unfold yamlLoadWithFallback
    rw [h]
  · intro pos h
    unfold yamlLoadWithFallback
    rw [h]
  · intro v h
    unfold yamlLoadWithFallback
    rw [h]
  · intro c
    simp [stripNonPrintable, List.mem_filter]

/-- Claim C2 witness: a text containing a NUL character makes the sample
parser raise a `ReaderError`; the fallback strips the character and the
single retry succeeds. -/
theorem c2_sanitization_retry_once_witness :
    c2SampleLoad "a\x00b".data = .error (.readerError 0) ∧
      yamlLoadWithFallback c2SampleLoad "a\x00b".data = .ok "ab".data := by
  have h := (c2_sanitization_retry_once c2SampleLoad "a\x00b".data).1 0 (by rfl)
  refine ⟨by rfl, ?_⟩
  rw [h]
  rfl
